import Mathlib

/-!
Verification of the File-Converter repository conversion subsystem.

The frontend utility modules (the supported-format registry, the API
service with its cache and retry logic, and the dashboard quota display)
are embedded directly from the TypeScript source.  The backend
orchestration engine (path resolver, task state machine, quota admission,
batch aggregation) is not part of the available sources; the definitions
for those components carry a doc comment starting with
`Modelled from the spec:` and follow the specification text.
-/

namespace FileConverter

/-! ## Definitions

### Format registry (from the frontend formats module) -/

/-- A format graph maps a source-format key to its list of target formats,
mirroring the `SupportedFormats` object type of the source. -/
abbrev FormatGraph := List (String × List String)

/-- Association-list lookup mirroring the bracket access used on the
`supportedFormats` object in the source. -/
def lookupFmt (g : FormatGraph) (k : String) : Option (List String) :=
  match g with
  | [] => none
  | (k', v) :: rest => if k = k' then some v else lookupFmt rest k

/-- The comprehensive mapping of source formats to available target formats,
translated entry-for-entry from the frontend formats module. -/
def supportedFormats : FormatGraph := [
  ("pdf", ["docx", "jpg", "png", "html", "txt"]),
  ("docx", ["pdf", "txt", "html", "epub", "rtf"]),
  ("txt", ["pdf", "docx", "html", "rtf"]),
  ("rtf", ["pdf", "docx", "txt", "html"]),
  ("epub", ["pdf", "docx", "html"]),
  ("html", ["pdf", "docx", "txt"]),
  ("jpg", ["png", "webp", "pdf", "svg", "gif"]),
  ("jpeg", ["png", "webp", "pdf", "svg", "gif"]),
  ("png", ["jpg", "webp", "pdf", "svg", "gif"]),
  ("gif", ["jpg", "png", "webp", "mp4"]),
  ("svg", ["png", "jpg", "pdf"]),
  ("webp", ["jpg", "png", "pdf"]),
  ("bmp", ["jpg", "png", "pdf"]),
  ("tiff", ["jpg", "png", "pdf"]),
  ("mp3", ["wav", "ogg", "flac", "aac"]),
  ("wav", ["mp3", "ogg", "flac", "aac"]),
  ("flac", ["mp3", "wav", "ogg", "aac"]),
  ("ogg", ["mp3", "wav", "flac", "aac"]),
  ("aac", ["mp3", "wav", "ogg"]),
  ("mp4", ["mkv", "avi", "webm", "gif"]),
  ("mkv", ["mp4", "avi", "webm"]),
  ("avi", ["mp4", "mkv", "webm"]),
  ("webm", ["mp4", "mkv", "avi"]),
  ("mov", ["mp4", "mkv", "avi", "webm"]),
  ("zip", ["7z", "tar", "rar", "gz"]),
  ("7z", ["zip", "tar", "gz"]),
  ("rar", ["zip", "7z", "tar", "gz"]),
  ("tar", ["zip", "7z", "gz"]),
  ("gz", ["zip", "7z", "tar"]),
  ("xlsx", ["csv", "pdf", "html", "json"]),
  ("xls", ["xlsx", "csv", "pdf", "html", "json"]),
  ("csv", ["xlsx", "json", "pdf", "html"]),
  ("pptx", ["pdf", "jpg", "png"]),
  ("ppt", ["pptx", "pdf", "jpg", "png"]),
  ("dwg", ["pdf", "dxf", "svg"]),
  ("dxf", ["pdf", "dwg", "svg"]),
  ("obj", ["stl", "fbx", "glb"]),
  ("stl", ["obj", "fbx", "glb"]),
  ("fbx", ["obj", "stl", "glb"]),
  ("glb", ["obj", "stl", "fbx"])]

/-- The target list registered for a source key, or the empty list when the
source is absent — mirrors the `supportedFormats[source] || []` idiom. -/
def formatTargets (g : FormatGraph) (s : String) : List String :=
  match lookupFmt g s with
  | some ts => ts
  | none => []

/-- ASCII lower-casing character by character, modelling the JavaScript
`toLowerCase()` calls of the source (format keys are ASCII). -/
def lowerStr (s : String) : String := ⟨s.data.map Char.toLower⟩

/-- Translation of `isConversionSupported`: lower-case both formats, fail if
the source key is unregistered, else check direct membership of the target. -/
def isConversionSupported (sourceFormat targetFormat : String) : Bool :=
  let source := lowerStr sourceFormat
  let target := lowerStr targetFormat
  match lookupFmt supportedFormats source with
  | none => false
  | some ts => ts.contains target

/-- Translation of `getAvailableTargetFormats`: the registered target list of
the lower-cased source, or the empty list for an unregistered source. -/
def getAvailableTargetFormats (sourceFormat : String) : List String :=
  match lookupFmt supportedFormats (lowerStr sourceFormat) with
  | some ts => ts
  | none => []

/-! ### Path resolver

The Path Resolver lives in the backend, which is not among the available
sources; it is modelled from the specification: a bounded search over the
registered edge set returning a chain of converter edges, preferring fewer
hops, or `none` (`NoPathFound`) when no chain connects the two formats
within `maxHops`. -/

/-- A converter edge: one direct source-to-target transformation. -/
abbrev ConvEdge := String × String

/-- Modelled from the spec: enumeration of every non-empty chain of at most
`n` registered converter edges starting at format `s`. -/
def chainsFrom (g : FormatGraph) : Nat → String → List (List ConvEdge)
  | 0, _ => []
  | n + 1, s =>
    (formatTargets g s).flatMap fun t =>
      [(s, t)] :: (chainsFrom g n t).map fun c => (s, t) :: c

/-- The format at which a chain starting at `src` ends: the target of the
last edge, or `src` itself for the empty chain. -/
def chainTarget (src : String) (c : List ConvEdge) : String :=
  match c.getLast? with
  | some e => e.2
  | none => src

/-- A chain is valid from `s` when each edge starts where the previous one
ended and each edge is registered in the graph. -/
def isChainFrom (g : FormatGraph) : String → List ConvEdge → Bool
  | _, [] => true
  | s, (a, b) :: rest => (a == s) && (formatTargets g a).contains b && isChainFrom g b rest

/-- Adjacent edges chain: the target of each edge equals the source of the
next edge. -/
def edgesChain : List ConvEdge → Bool
  | [] => true
  | [_] => true
  | (_, b) :: (c, d) :: rest => (b == c) && edgesChain ((c, d) :: rest)

/-- Modelled from the spec: among the candidate chains pick one of minimal
hop count, keeping the earliest minimal candidate for determinism. -/
def pickShortest : List (List ConvEdge) → Option (List ConvEdge)
  | [] => none
  | c :: rest =>
    match pickShortest rest with
    | none => some c
    | some b => if b.length < c.length then some b else some c

/-- Modelled from the spec: `resolve(source, target, maxHops)` returns a
minimal-hop `ConversionPath` over the registered edge set, or `none` for
`NoPathFound` when no chain of at most `maxHops` edges connects the two. -/
def resolve (g : FormatGraph) (src tgt : String) (maxHops : Nat) : Option (List ConvEdge) :=
  pickShortest ((chainsFrom g maxHops src).filter fun c => chainTarget src c == tgt)

/-! ### Conversion status

The frontend `Conversion` interface declares the client-side status union;
the backend state machine of spec section 4.2 is not among the available
sources and is modelled from the spec. -/

/-- The status union type of the frontend `Conversion` interface, which
admits exactly six literals. -/
inductive ConversionStatus where
  | pending
  | processing
  | completed
  | failed
  | scheduled
  | expired
deriving DecidableEq, Fintype

/-- The status string literals of the frontend `Conversion` interface, in
source order. -/
def conversionStatusLiterals : List String :=
  ["pending", "processing", "completed", "failed", "scheduled", "expired"]

/-- The string literal of each client status constructor. -/
def statusLiteral : ConversionStatus → String
  | .pending => "pending"
  | .processing => "processing"
  | .completed => "completed"
  | .failed => "failed"
  | .scheduled => "scheduled"
  | .expired => "expired"

/-- Modelled from the spec: the backend task state machine status set with
the seven states of spec section 4.2. -/
inductive TaskStatus where
  | pending
  | scheduled
  | processing
  | completed
  | failed
  | expired
  | cancelled
deriving DecidableEq, Fintype

/-- Modelled from the spec: the terminal states of the task state machine. -/
def isTerminal : TaskStatus → Bool
  | .completed => true
  | .failed => true
  | .cancelled => true
  | .expired => true
  | _ => false

/-- Modelled from the spec: the states in which explicit user cancellation
applies. -/
def cancellable : TaskStatus → Bool
  | .pending => true
  | .scheduled => true
  | .processing => true
  | _ => false

/-- Modelled from the spec: the cancel-task operation — cancellation of an
active task moves it to `cancelled`; cancelling an already-terminal task is
a no-op, not an error. -/
def cancelTask (s : TaskStatus) : Except String TaskStatus :=
  if cancellable s then Except.ok TaskStatus.cancelled else Except.ok s

/-! ### API service retry loop (from the frontend api module)

`apiService.get` and `apiService.post` share the same catch-block logic:
retry while attempts remain and the error is transient (no response
received, or a response with status at least 500), waiting
`1000 * Math.pow(2, config.retry - retry)` milliseconds before each retry,
where `retry` is destructured from `config` and the recursive call passes a
config whose `retry` field is the decremented counter. -/

/-- An HTTP failure: a network error with no response, or an error response
carrying a status code. -/
inductive HttpFailure where
  | noResponse : HttpFailure
  | responseWith : Nat → HttpFailure
deriving DecidableEq

/-- The retry condition of the source catch block,
`!error.response || error.response.status >= 500`. -/
def transientFailure : HttpFailure → Bool
  | .noResponse => true
  | .responseWith s => 500 ≤ s

/-- The retry loop of `apiService.get` (identical in `apiService.post`):
`attempts i` is the outcome of the i-th HTTP attempt, `cfgRetry` mirrors the
`retry` field of the config object of the current invocation and the second
argument the counter destructured from it (the two coincide at every call,
as in the source).  Returns the final result together with the list of
backoff delays in milliseconds. -/
def apiRequestAux {α : Type} (attempts : Nat → Except HttpFailure α) :
    Nat → Nat → Nat → Except HttpFailure α × List Nat
  | _, 0, idx =>
    match attempts idx with
    | .ok v => (.ok v, [])
    | .error e => (.error e, [])
  | cfgRetry, r + 1, idx =>
    match attempts idx with
    | .ok v => (.ok v, [])
    | .error e =>
      if transientFailure e then
        let rest := apiRequestAux attempts r r (idx + 1)
        (rest.1, 1000 * 2 ^ (cfgRetry - (r + 1)) :: rest.2)
      else (.error e, [])

/-- `apiService.get` with the `retry` config option: the destructured
counter is seeded from the `retry` field of the config. -/
def apiRequest {α : Type} (attempts : Nat → Except HttpFailure α) (retry : Nat) :
    Except HttpFailure α × List Nat :=
  apiRequestAux attempts retry retry 0

/-- A concrete attempt sequence: every attempt fails with a 404 response. -/
def always404 : Nat → Except HttpFailure Unit := fun _ =>
  Except.error (HttpFailure.responseWith 404)

/-- A concrete attempt sequence: attempts 0 and 1 fail with a 500 response,
attempt 2 succeeds. -/
def transientTwice : Nat → Except HttpFailure Unit := fun i =>
  if i < 2 then Except.error (HttpFailure.responseWith 500) else Except.ok ()

/-! ### Quota

The dashboard page computes the remaining daily allowance of the user; the
backend admission gate `tryAdmit` of spec section 4.5 is not among the
available sources and is modelled from the spec, with the premium/other
tier distinction the dashboard code exhibits. -/

/-- Translation of the dashboard remaining-conversions computation: premium
users get `100 - conversions_today`, every other tier — including
enterprise — gets `5 - conversions_today`. -/
def remainingToday (tier : String) (conversionsToday : Int) : Int :=
  if tier = "premium" then 100 - conversionsToday else 5 - conversionsToday

/-- The tier-limit table in the words of the claim, for comparison with the
code: free 5/day, premium 100/day, enterprise unlimited (`none`); any other
tier defaults to the free limit. -/
def claimTierLimit : String → Option Int
  | "premium" => some 100
  | "enterprise" => none
  | _ => some 5

/-- The effective per-day tier limit the dashboard code embodies: 100 for
premium, 5 for everything else. -/
def tierLimit (tier : String) : Nat :=
  if tier = "premium" then 100 else 5

/-- Result of a quota admission attempt. -/
inductive AdmitResult where
  | admitted
  | quotaExceeded
deriving DecidableEq

/-- Modelled from the spec: the backend `tryAdmit` gate reads the count for
the day, compares it against the tier limit, and — only when under the
limit — increments the counter and admits; otherwise it rejects without
mutating state.  The check-then-increment is one atomic unit. -/
def tryAdmit (tier : String) (count : Nat) : AdmitResult × Nat :=
  if count < tierLimit tier then (AdmitResult.admitted, count + 1)
  else (AdmitResult.quotaExceeded, count)

/-! ### Batch status (from the frontend api module and spec section 4.4) -/

/-- The field names of the `getBatchStatus` response type declared in the
frontend api module, in source order. -/
def batchStatusFields : List String :=
  ["batch_id", "total", "completed", "failed", "processing", "conversions"]

/-- The aggregate counters of a batch status response. -/
structure BatchAgg where
  total : Nat
  completed : Nat
  failed : Nat
  processing : Nat
deriving DecidableEq

/-- Modelled from the spec: the backend recomputes the aggregate on read by
walking the current statuses of the member tasks. -/
def batchAggStep (a : BatchAgg) (s : TaskStatus) : BatchAgg :=
  { total := a.total + 1,
    completed := if s = TaskStatus.completed then a.completed + 1 else a.completed,
    failed := if s = TaskStatus.failed then a.failed + 1 else a.failed,
    processing := if s = TaskStatus.processing then a.processing + 1 else a.processing }

/-- Modelled from the spec: `getBatchStatus` derives its counters from the
current statuses of the member tasks of the batch. -/
def getBatchStatusAgg (members : List TaskStatus) : BatchAgg :=
  members.foldl batchAggStep ⟨0, 0, 0, 0⟩

/-! ### Response cache (RequestCache from the frontend api module) -/

/-- A parsed cache entry: the payload together with its expiry timestamp in
milliseconds, as serialized by the set method of `RequestCache`. -/
structure CacheItem (α : Type) where
  data : α
  expiry : Nat
deriving DecidableEq

/-- What a stored string may parse to: a well-formed item, or an unparsable
string (the `JSON.parse` failure branch of the source). -/
inductive StoredEntry (α : Type) where
  | item : CacheItem α → StoredEntry α
  | unparsable : StoredEntry α
deriving DecidableEq

/-- `localStorage`, modelled as an association list from keys to entries. -/
abbrev LocalStore (α : Type) := List (String × StoredEntry α)

/-- `localStorage.getItem`. -/
def storeGetItem {α : Type} : LocalStore α → String → Option (StoredEntry α)
  | [], _ => none
  | (k', v) :: rest, k => if k = k' then some v else storeGetItem rest k

/-- `localStorage.removeItem`. -/
def storeRemoveItem {α : Type} (st : LocalStore α) (k : String) : LocalStore α :=
  st.filter fun kv => !(kv.1 == k)

/-- `localStorage.setItem`: overwrite any entry under the key. -/
def storeSetItem {α : Type} (st : LocalStore α) (k : String) (v : StoredEntry α) :
    LocalStore α :=
  (k, v) :: storeRemoveItem st k

/-- The key base `RequestCache` prepends to every cache key. -/
def cacheKeyBase : String := "api_cache_"

/-- Translation of the set method of `RequestCache`: store the payload with
expiry `Date.now() + expiryTime` under the base-prefixed key. -/
def cacheSet {α : Type} (st : LocalStore α) (key : String) (v : α)
    (expiryTime now : Nat) : LocalStore α :=
  storeSetItem st (cacheKeyBase ++ key) (StoredEntry.item ⟨v, now + expiryTime⟩)

/-- Translation of the get method of `RequestCache`: a missing key yields
null; an entry whose expiry is strictly less than `Date.now()` is removed
and yields null; an unparsable entry is removed and yields null; otherwise
the payload is returned with the store untouched. -/
def cacheGet {α : Type} (st : LocalStore α) (key : String) (now : Nat) :
    Option α × LocalStore α :=
  let ck := cacheKeyBase ++ key
  match storeGetItem st ck with
  | none => (none, st)
  | some (StoredEntry.item it) =>
    if it.expiry < now then (none, storeRemoveItem st ck) else (some it.data, st)
  | some StoredEntry.unparsable => (none, storeRemoveItem st ck)

/-! ## Theorems

### Resolver lemmas -/

/-- Every enumerated chain is a valid non-empty chain of bounded length. -/
theorem mem_chainsFrom {g : FormatGraph} : ∀ {n : Nat} {s : String} {c : List ConvEdge},
    c ∈ chainsFrom g n s → isChainFrom g s c = true ∧ c ≠ [] ∧ c.length ≤ n := by
  intro n
  induction n with
  | zero => intro s c h; simp [chainsFrom] at h
  | succ m ih =>
    intro s c h
    simp only [chainsFrom, List.mem_flatMap] at h
    obtain ⟨t, ht, hc⟩ := h
    rcases List.mem_cons.mp hc with h1 | h2
    · subst h1
      refine ⟨?_, by simp, by simp⟩
      simpa [isChainFrom] using ht
    · obtain ⟨c', hc', rfl⟩ := List.mem_map.mp h2
      obtain ⟨hchain, _, hlen⟩ := ih hc'
      refine ⟨?_, by simp, ?_⟩
      · simpa [isChainFrom, hchain] using ht
      · simpa using Nat.succ_le_succ hlen

/-- Every valid non-empty chain of bounded length is enumerated. -/
theorem chainsFrom_complete {g : FormatGraph} : ∀ {c : List ConvEdge} {s : String} {n : Nat},
    isChainFrom g s c = true → c ≠ [] → c.length ≤ n → c ∈ chainsFrom g n s := by
  intro c
  induction c with
  | nil => intro s n _ hne _; exact absurd rfl hne
  | cons e rest ih =>
    intro s n hchain hne hlen
    obtain ⟨a, b⟩ := e
    simp only [isChainFrom, Bool.and_eq_true, beq_iff_eq] at hchain
    obtain ⟨⟨rfl, hcont⟩, hrest⟩ := hchain
    have hb : b ∈ formatTargets g a := by
      exact List.elem_iff.mp (by simpa using hcont)
    cases n with
    | zero => simp at hlen
    | succ m =>
      simp only [chainsFrom, List.mem_flatMap]
      refine ⟨b, hb, ?_⟩
      cases rest with
      | nil => exact List.mem_cons_self _ _
      | cons f rs =>
        refine List.mem_cons_of_mem _ ?_
        refine List.mem_map.mpr ⟨f :: rs, ?_, rfl⟩
        exact ih hrest (by simp) (by simpa using Nat.succ_le_succ_iff.mp hlen)

/-- A selected chain is one of the candidates. -/
theorem pickShortest_mem : ∀ (l : List (List ConvEdge)) (c : List ConvEdge),
    pickShortest l = some c → c ∈ l := by
  intro l
  induction l with
  | nil => intro c h; simp [pickShortest] at h
  | cons x rest ih =>
    intro c h
    rw [pickShortest] at h
    cases hrec : pickShortest rest with
    | none =>
      rw [hrec] at h
      injection h with h
      subst h
      exact List.mem_cons_self _ _
    | some b =>
      rw [hrec] at h
      have h' : (if b.length < x.length then some b else some x) = some c := h
      by_cases hb : b.length < x.length
      · rw [if_pos hb] at h'
        injection h' with h'
        subst h'
        exact List.mem_cons_of_mem _ (ih _ hrec)
      · rw [if_neg hb] at h'
        injection h' with h'
        subst h'
        exact List.mem_cons_self _ _

/-- A non-empty candidate list always yields a selection. -/
theorem pickShortest_isSome : ∀ (l : List (List ConvEdge)), l ≠ [] →
    ∃ c, pickShortest l = some c := by
  intro l hne
  cases l with
  | nil => exact absurd rfl hne
  | cons x rest =>
    rw [pickShortest]
    cases pickShortest rest with
    | none => exact ⟨x, rfl⟩
    | some b =>
      by_cases hb : b.length < x.length
      · exact ⟨b, show (if b.length < x.length then some b else some x) = some b by
          rw [if_pos hb]⟩
      · exact ⟨x, show (if b.length < x.length then some b else some x) = some x by
          rw [if_neg hb]⟩

/-- In a valid chain adjacent edges link target to source. -/
theorem edgesChain_of_chain {g : FormatGraph} : ∀ {c : List ConvEdge} {s : String},
    isChainFrom g s c = true → edgesChain c = true := by
  intro c
  induction c with
  | nil => intro s _; rfl
  | cons e rest ih =>
    intro s h
    obtain ⟨a, b⟩ := e
    simp only [isChainFrom, Bool.and_eq_true, beq_iff_eq] at h
    obtain ⟨⟨rfl, _⟩, hrest⟩ := h
    cases rest with
    | nil => rfl
    | cons f rs =>
      obtain ⟨u, v⟩ := f
      have hu : u = b := by
        simp only [isChainFrom, Bool.and_eq_true, beq_iff_eq] at hrest
        exact hrest.1.1
      subst hu
      simp only [edgesChain, Bool.and_eq_true]
      exact ⟨by simp, ih hrest⟩

/-- The first edge of a valid chain starts at the requested source. -/
theorem chain_head_src {g : FormatGraph} {s : String} {e : ConvEdge} {rest : List ConvEdge}
    (h : isChainFrom g s (e :: rest) = true) : e.1 = s := by
  obtain ⟨a, b⟩ := e
  simp only [isChainFrom, Bool.and_eq_true, beq_iff_eq] at h
  exact h.1.1

/-- Absence of any valid bounded chain, given by exhaustive enumeration. -/
theorem noChain_of_enum {g : FormatGraph} {n : Nat} {s t : String}
    (h : (chainsFrom g n s).all (fun c => !(chainTarget s c == t)) = true) :
    ∀ c, isChainFrom g s c = true → c ≠ [] → c.length ≤ n → chainTarget s c ≠ t := by
  intro c hc hne hlen
  have hmem := chainsFrom_complete hc hne hlen
  have := List.all_eq_true.mp h c hmem
  simpa using this

/-! ### Claims C1 and C7 -/

/-- Claim C1: for every pair of formats connected by a valid chain of at most
`maxHops` registered converter edges, path resolution returns a
`ConversionPath` whose edges chain correctly end-to-end — the source of the
first edge is the requested source, the target of each edge equals the
source of the next, and the target of the last edge is the requested
target — including a multi-step chain when no direct converter edge exists. -/
theorem resolve_returns_chained_path (src tgt : String) (maxHops : Nat) (c : List ConvEdge)
    (hchain : isChainFrom supportedFormats src c = true) (hne : c ≠ [])
    (hlen : c.length ≤ maxHops) (htgt : chainTarget src c = tgt) :
    ∃ p, resolve supportedFormats src tgt maxHops = some p ∧
      isChainFrom supportedFormats src p = true ∧ edgesChain p = true ∧ p ≠ [] ∧
      p.head?.map Prod.fst = some src ∧ p.getLast?.map Prod.snd = some tgt := by
  have hmem : c ∈ chainsFrom supportedFormats maxHops src := chainsFrom_complete hchain hne hlen
  have hfil : c ∈ (chainsFrom supportedFormats maxHops src).filter
      (fun c => chainTarget src c == tgt) :=
    List.mem_filter.mpr ⟨hmem, by simp [htgt]⟩
  obtain ⟨p, hp⟩ := pickShortest_isSome _ (List.ne_nil_of_mem hfil)
  have hpfil := List.mem_filter.mp (pickShortest_mem _ _ hp)
  obtain ⟨hpchain, hpne, _⟩ := mem_chainsFrom hpfil.1
  have hptgt : chainTarget src p = tgt := by simpa using hpfil.2
  refine ⟨p, hp, hpchain, edgesChain_of_chain hpchain, hpne, ?_, ?_⟩
  · cases p with
    | nil => exact absurd rfl hpne
    | cons e rest => simpa using chain_head_src hpchain
  · obtain ⟨e, he⟩ := Option.isSome_iff_exists.mp (List.getLast?_isSome.mpr hpne)
    have h2 : e.2 = tgt := by
      have hct : chainTarget src p = e.2 := by simp [chainTarget, he]
      rw [← hct]
      exact hptgt
    rw [he]
    simpa using h2

/-- Witness for C1: the multi-hop pair csv to docx (no direct edge) resolves
to a correctly chained path. -/
theorem resolve_returns_chained_path_witness :
    isChainFrom supportedFormats "csv" [("csv", "pdf"), ("pdf", "docx")] = true ∧
    (∃ p, resolve supportedFormats "csv" "docx" 3 = some p ∧
      isChainFrom supportedFormats "csv" p = true ∧ edgesChain p = true ∧ p ≠ [] ∧
      p.head?.map Prod.fst = some "csv" ∧ p.getLast?.map Prod.snd = some "docx") :=
  ⟨by decide, resolve_returns_chained_path "csv" "docx" 3 [("csv", "pdf"), ("pdf", "docx")]
    (by decide) (by decide) (by decide) (by decide)⟩

/-- Claim C7: when no valid chain of at most `maxHops` registered edges
connects the source to the target, resolution yields `NoPathFound` (`none`);
and for an unregistered source format the conversion is reported unsupported
and the offered target-format list is empty. -/
theorem no_path_yields_nopathfound :
    (∀ src tgt maxHops,
      (∀ c, isChainFrom supportedFormats src c = true → c ≠ [] → c.length ≤ maxHops →
        chainTarget src c ≠ tgt) →
      resolve supportedFormats src tgt maxHops = none) ∧
    (∀ src tgt, lookupFmt supportedFormats (lowerStr src) = none →
      getAvailableTargetFormats src = [] ∧ isConversionSupported src tgt = false) := by
  constructor
  · intro src tgt n h
    have hfil : (chainsFrom supportedFormats n src).filter
        (fun c => chainTarget src c == tgt) = [] := by
      rw [List.filter_eq_nil_iff]
      intro c hc
      obtain ⟨hchain, hne, hlen⟩ := mem_chainsFrom hc
      simpa using h c hchain hne hlen
    rw [resolve, hfil]
    rfl
  · intro src tgt hlook
    exact ⟨by simp [getAvailableTargetFormats, hlook], by simp [isConversionSupported, hlook]⟩

/-- Witness for C7: csv reaches no chain to mp3 within 3 hops, and json is
not registered as a source format. -/
theorem no_path_yields_nopathfound_witness :
    resolve supportedFormats "csv" "mp3" 3 = none ∧
    getAvailableTargetFormats "json" = [] ∧
    isConversionSupported "json" "pdf" = false :=
  ⟨no_path_yields_nopathfound.1 "csv" "mp3" 3 (noChain_of_enum (by decide)),
   (no_path_yields_nopathfound.2 "json" "pdf" (by decide)).1,
   (no_path_yields_nopathfound.2 "json" "pdf" (by decide)).2⟩

/-! ### Claims C2 and C8 -/

/-- Counterexample for C2: the claim enumerates seven states including
`cancelled`, but the status union of the frontend `Conversion` type does not
contain the literal `cancelled`. -/
theorem conversion_status_no_cancelled_counterexample :
    "cancelled" ∉ conversionStatusLiterals ∧ conversionStatusLiterals.length = 6 := by
  decide

/-- Claim C2 (amended): the client `Conversion` status is one of exactly the
six states pending, processing, completed, failed, scheduled, expired —
`cancelled` is not among them — while the spec-modelled backend state
machine moves a task in any of pending, scheduled, processing to `cancelled`
on explicit user cancellation. -/
theorem conversion_status_states :
    (∀ s : ConversionStatus, statusLiteral s ∈ conversionStatusLiterals) ∧
    "cancelled" ∉ conversionStatusLiterals ∧
    (∀ t : TaskStatus, cancellable t = true →
      cancelTask t = Except.ok TaskStatus.cancelled) := by
  refine ⟨?_, by decide, ?_⟩
  · intro s
    cases s <;> decide
  · intro t ht
    simp [cancelTask, ht]

/-- Witness for C2 (amended) at the concrete states pending and processing. -/
theorem conversion_status_states_witness :
    statusLiteral ConversionStatus.pending ∈ conversionStatusLiterals ∧
    cancelTask TaskStatus.processing = Except.ok TaskStatus.cancelled :=
  ⟨conversion_status_states.1 ConversionStatus.pending,
   conversion_status_states.2.2 TaskStatus.processing (by decide)⟩

/-- Claim C8: cancelling is idempotent — for every task already in a
terminal state the cancel request is a no-op that leaves the status
unchanged and produces no error, and a second cancel after any cancel
changes nothing further. -/
theorem cancel_terminal_noop :
    (∀ s : TaskStatus, isTerminal s = true → cancelTask s = Except.ok s) ∧
    (∀ s t : TaskStatus, cancelTask s = Except.ok t → cancelTask t = Except.ok t) := by
  constructor
  · intro s hs
    cases s <;> simp_all [isTerminal, cancelTask, cancellable]
  · intro s t h
    cases s <;> simp [cancelTask, cancellable] at h <;> subst h <;>
      simp [cancelTask, cancellable]

/-- Witness for C8 at the terminal states completed and cancelled. -/
theorem cancel_terminal_noop_witness :
    cancelTask TaskStatus.completed = Except.ok TaskStatus.completed ∧
    cancelTask TaskStatus.cancelled = Except.ok TaskStatus.cancelled :=
  ⟨cancel_terminal_noop.1 TaskStatus.completed (by decide),
   cancel_terminal_noop.2 TaskStatus.pending TaskStatus.cancelled rfl⟩

/-! ### Claims C3 and C4 -/

/-- Claim C4: only transient errors (no response, or a 5xx-class response)
are ever retried — an attempt failing with a sub-500 status yields immediate
terminal failure with no retry for every remaining-retry count, and whenever
any retry delay was incurred the failure of the first attempt was transient
with retries remaining. -/
theorem only_transient_retried {α : Type} (attempts : Nat → Except HttpFailure α) :
    (∀ cfgRetry retry idx s, s < 500 → attempts idx = .error (.responseWith s) →
      apiRequestAux attempts cfgRetry retry idx = (.error (.responseWith s), [])) ∧
    (∀ cfgRetry retry idx, (apiRequestAux attempts cfgRetry retry idx).2 ≠ [] →
      ∃ e, attempts idx = .error e ∧ transientFailure e = true ∧ 0 < retry) := by
  constructor
  · intro cfgRetry retry idx s hs hatt
    have htr : transientFailure (HttpFailure.responseWith s) = false := by
      simp [transientFailure, Nat.not_le.mpr hs]
    cases retry with
    | zero => simp [apiRequestAux, hatt]
    | succ r => simp [apiRequestAux, hatt, htr]
  · intro cfgRetry retry idx hne
    cases retry with
    | zero =>
      exfalso
      apply hne
      cases hatt : attempts idx <;> simp [apiRequestAux, hatt]
    | succ r =>
      cases hatt : attempts idx with
      | ok v => exact absurd (by simp [apiRequestAux, hatt]) hne
      | error e =>
        refine ⟨e, rfl, ?_, Nat.succ_pos r⟩
        by_contra htr
        have htr' : transientFailure e = false := by
          cases h : transientFailure e
          · rfl
          · exact absurd h htr
        exact hne (by simp [apiRequestAux, hatt, htr'])

/-- Witness for C4: a 404 response is never retried even with two retries
remaining. -/
theorem only_transient_retried_witness :
    apiRequestAux always404 2 2 0 = (Except.error (HttpFailure.responseWith 404), []) :=
  (only_transient_retried always404).1 2 2 0 404 (by decide) rfl

/-- Claim C3 (code bug): with `retry := 2` and transient failures on the
first two attempts the request succeeds on the third attempt, but both
backoff delays equal 1000 ms, because the exponent `config.retry - retry`
in the source is always zero (the counter is destructured from the very
config field it is subtracted from) — while the documented exponential
policy `baseDelay * 2^(attempt-1)` requires delays of 1000 ms then 2000 ms. -/
theorem backoff_delay_constant_bug :
    apiRequest transientTwice 2 = (Except.ok (), [1000, 1000]) ∧
    (apiRequest transientTwice 2).2 ≠ [1000 * 2 ^ 0, 1000 * 2 ^ 1] := by
  constructor
  · rfl
  · intro h
    simp [apiRequest, apiRequestAux, transientTwice, transientFailure] at h

/-! ### Claims C5 and C9 -/

/-- Counterexample for C5: the tier table of the claim says enterprise is
unlimited, yet the dashboard computes the remaining allowance of an
enterprise user as `5 - today`, exhausted at five conversions and negative
beyond. -/
theorem enterprise_not_unlimited_counterexample :
    claimTierLimit "enterprise" = none ∧
    remainingToday "enterprise" 5 = 0 ∧
    remainingToday "enterprise" 6 = -1 := by
  refine ⟨rfl, ?_, ?_⟩ <;> decide

/-- Claim C5 (amended): admission compares against the tier limit with
free = 5/day, premium = 100/day, and any other tier — enterprise
included — treated with the free limit of 5/day; the dashboard remaining
allowance equals that tier limit minus the accepted count of the day; and
at the limit the modelled admission returns QuotaExceeded without mutating
the counter. -/
theorem quota_limit_and_rejection :
    (∀ today : Int,
      remainingToday "free" today = (tierLimit "free" : Int) - today ∧
      remainingToday "premium" today = (tierLimit "premium" : Int) - today ∧
      remainingToday "enterprise" today = (tierLimit "enterprise" : Int) - today) ∧
    (∀ tier count, tierLimit tier ≤ count →
      tryAdmit tier count = (AdmitResult.quotaExceeded, count)) := by
  constructor
  · intro today
    refine ⟨?_, ?_, ?_⟩ <;> simp [remainingToday, tierLimit]
  · intro tier count h
    simp [tryAdmit, Nat.not_lt.mpr h]

/-- Witness for C5 (amended) at a free-tier user with five accepted tasks. -/
theorem quota_limit_and_rejection_witness :
    remainingToday "free" 3 = (tierLimit "free" : Int) - 3 ∧
    tryAdmit "free" 5 = (AdmitResult.quotaExceeded, 5) :=
  ⟨(quota_limit_and_rejection.1 3).1,
   quota_limit_and_rejection.2 "free" 5 (by decide)⟩

/-- Claim C9: the check-then-increment is a single atomic unit, so two
concurrent `tryAdmit` calls linearize into one sequential order; with
exactly one slot remaining the first linearized call is admitted, the
second is rejected, and the counter ends exactly at the limit — never two
admissions. -/
theorem atomic_admission_one_slot (tier : String) (count : Nat)
    (h : count + 1 = tierLimit tier) :
    (tryAdmit tier count).1 = AdmitResult.admitted ∧
    (tryAdmit tier (tryAdmit tier count).2).1 = AdmitResult.quotaExceeded ∧
    (tryAdmit tier (tryAdmit tier count).2).2 = tierLimit tier := by
  have hlt : count < tierLimit tier := by omega
  have hge : ¬ (count + 1 < tierLimit tier) := by omega
  simp [tryAdmit, hlt, hge, h]

/-- Witness for C9 at a free-tier user with one remaining slot. -/
theorem atomic_admission_one_slot_witness :
    (tryAdmit "free" 4).1 = AdmitResult.admitted ∧
    (tryAdmit "free" (tryAdmit "free" 4).2).1 = AdmitResult.quotaExceeded ∧
    (tryAdmit "free" (tryAdmit "free" 4).2).2 = tierLimit "free" :=
  atomic_admission_one_slot "free" 4 (by decide)

/-! ### Claim C6 -/

/-- Counterexample for C6: the claim says the aggregate carries exactly the
counts completed, failed, processing, pending and total, but the
`getBatchStatus` response type has no `pending` field (it has `batch_id`
and `conversions` instead). -/
theorem batch_status_no_pending_counterexample :
    "pending" ∉ batchStatusFields ∧
    "batch_id" ∈ batchStatusFields ∧ "conversions" ∈ batchStatusFields := by
  decide

/-- Folding the aggregation step accumulates the member counts on top of
any starting accumulator. -/
theorem batchAgg_foldl (members : List TaskStatus) : ∀ (a : BatchAgg),
    (members.foldl batchAggStep a).total = a.total + members.length ∧
    (members.foldl batchAggStep a).completed
      = a.completed + members.count TaskStatus.completed ∧
    (members.foldl batchAggStep a).failed = a.failed + members.count TaskStatus.failed ∧
    (members.foldl batchAggStep a).processing
      = a.processing + members.count TaskStatus.processing := by
  induction members with
  | nil => intro a; simp
  | cons s rest ih =>
    intro a
    obtain ⟨h1, h2, h3, h4⟩ := ih (batchAggStep a s)
    refine ⟨?_, ?_, ?_, ?_⟩
    · rw [List.foldl_cons, h1]
      simp [batchAggStep]
      omega
    · rw [List.foldl_cons, h2]
      cases s <;> (simp [batchAggStep, List.count_cons]; try omega)
    · rw [List.foldl_cons, h3]
      cases s <;> (simp [batchAggStep, List.count_cons]; try omega)
    · rw [List.foldl_cons, h4]
      cases s <;> (simp [batchAggStep, List.count_cons]; try omega)

/-- Claim C6 (amended): for every batch the aggregate carries exactly the
fields batch_id, total, completed, failed, processing and conversions — no
separate pending count — and the modelled counters are derived from the
current statuses of the member tasks: total is the member count and each
counter tallies the members in that status. -/
theorem batch_status_counts (members : List TaskStatus) :
    "pending" ∉ batchStatusFields ∧
    batchStatusFields
      = ["batch_id", "total", "completed", "failed", "processing", "conversions"] ∧
    (getBatchStatusAgg members).total = members.length ∧
    (getBatchStatusAgg members).completed = members.count TaskStatus.completed ∧
    (getBatchStatusAgg members).failed = members.count TaskStatus.failed ∧
    (getBatchStatusAgg members).processing = members.count TaskStatus.processing := by
  obtain ⟨h1, h2, h3, h4⟩ := batchAgg_foldl members ⟨0, 0, 0, 0⟩
  exact ⟨by decide, rfl, by simpa using h1, by simpa using h2, by simpa using h3,
    by simpa using h4⟩

/-! ### Claim C10 -/

/-- A set entry is found under its own key. -/
theorem storeGetItem_set {α : Type} (st : LocalStore α) (k : String) (v : StoredEntry α) :
    storeGetItem (storeSetItem st k v) k = some v := by
  simp [storeSetItem, storeGetItem]

/-- Counterexample for C10: a get performed exactly at the stored expiry
time still returns the value — the source checks `item.expiry < Date.now()`
strictly — whereas the claim says a get at or after the expiry time returns
null. -/
theorem cache_get_at_expiry_counterexample :
    (cacheGet (cacheSet ([] : LocalStore Nat) "k" 7 5 0) "k" 5).1 = some 7 ∧
    (cacheGet (cacheSet ([] : LocalStore Nat) "k" 7 5 0) "k" 5).1 ≠ none := by
  refine ⟨rfl, by decide⟩

/-- Claim C10 (amended): after `set(k, v, t)` at time `n0`, a get at any
time up to and including the expiry `n0 + t` returns `v` and leaves the
store unchanged; a get strictly after the expiry returns null and removes
the entry; and a get finding an unparsable entry returns null and removes
it. -/
theorem cache_ttl_semantics {α : Type} (st : LocalStore α) (key : String) (v : α)
    (t n0 now : Nat) :
    (now ≤ n0 + t →
      cacheGet (cacheSet st key v t n0) key now = (some v, cacheSet st key v t n0)) ∧
    (n0 + t < now →
      cacheGet (cacheSet st key v t n0) key now =
        (none, storeRemoveItem (cacheSet st key v t n0) (cacheKeyBase ++ key))) ∧
    (storeGetItem st (cacheKeyBase ++ key) = some StoredEntry.unparsable →
      cacheGet st key now = (none, storeRemoveItem st (cacheKeyBase ++ key))) := by
  refine ⟨?_, ?_, ?_⟩
  · intro h
    have hno : ¬ (n0 + t < now) := by omega
    simp [cacheGet, cacheSet, storeGetItem_set, hno]
  · intro h
    simp [cacheGet, cacheSet, storeGetItem_set, h]
  · intro h
    simp [cacheGet, h]

/-- Witness for C10 (amended): a value stored at time 0 with TTL 5 is served
at time 3 and evicted at time 6. -/
theorem cache_ttl_semantics_witness :
    cacheGet (cacheSet ([] : LocalStore Nat) "k" 7 5 0) "k" 3 =
      (some 7, cacheSet ([] : LocalStore Nat) "k" 7 5 0) ∧
    cacheGet (cacheSet ([] : LocalStore Nat) "k" 7 5 0) "k" 6 =
      (none, storeRemoveItem (cacheSet ([] : LocalStore Nat) "k" 7 5 0)
        (cacheKeyBase ++ "k")) :=
  ⟨(cache_ttl_semantics ([] : LocalStore Nat) "k" 7 5 0 3).1 (by decide),
   (cache_ttl_semantics ([] : LocalStore Nat) "k" 7 5 0 6).2.1 (by decide)⟩

end FileConverter
